import Mathlib

/-!
Shallow embedding of the SurfmoreSEO site-wide audit pipeline.

The embedding covers the parts of the repository the verified claims are
about: the finding data model and cross-page aggregation (`src/unnamed/part_001`,
`runFullSiteAudit` / `runBatchAudit`), scoring (`src/lib/audit.ts`),
improvement suggestions (`src/unnamed/part_004`,
`buildSuggestionsFromAggregated`), the sitemap resolver with its recursive
crawl, homepage fallback and homepage-first ordering (`src/lib/sitemap.ts`),
the two-tier caches (`src/lib/sitemap.ts` in-memory/file sitemap cache and
`src/unnamed/part_003` report cache), and the HTTP entrypoint input handling
(`src/unnamed/part_009`, `POST`).

Network and filesystem effects are made explicit: fetches are an oracle
parameter (`none` models a timeout / non-2xx / thrown error), the cache
tiers are explicit state values passed in and returned, and `Date.now()` is
a `now : Nat` parameter.  JavaScript `Map`s are insertion-ordered
association lists, matching `Map` iteration semantics.  `Math.round` on the
nonnegative ratios used by the code is modelled exactly as
`fun p t => (200 * p + t) / (2 * t)` in natural division; the theorem for
the score claim proves this equal to `⌊100 * p / t + 1 / 2⌋` over `ℚ`.
-/

set_option linter.unusedVariables false

/-! ## JavaScript string and collection primitives -/

/-- Auxiliary scan for `jsIncludes`: does `pat` occur as a contiguous run
somewhere in the character list? -/
def includesAux (pat : List Char) : List Char → Bool
  | [] => pat.isEmpty
  | c :: rest => pat.isPrefixOf (c :: rest) || includesAux pat rest

/-- Model of JS `String.prototype.includes`. -/
def jsIncludes (s pat : String) : Bool :=
  includesAux pat.toList s.toList

/-- Model of JS `String.prototype.startsWith`. -/
def jsStartsWith (s pat : String) : Bool :=
  pat.toList.isPrefixOf s.toList

/-- Model of JS `String.prototype.endsWith`. -/
def jsEndsWith (s pat : String) : Bool :=
  pat.toList.isSuffixOf s.toList

/-- Model of JS `String.prototype.trim`: strip whitespace from both ends. -/
def jsTrim (s : String) : String :=
  String.mk (((s.toList.dropWhile Char.isWhitespace).reverse.dropWhile
    Char.isWhitespace).reverse)

/-- Model of the JS idiom `o || d` for an optional string: `undefined` and
the empty string are falsy and fall back to the default. -/
def jsOrStr (o : Option String) (d : String) : String :=
  match o with
  | none => d
  | some s => if s = "" then d else s

/-- Model of the JS idiom `parseInt(s, 10) || 1`: leading whitespace is
skipped, the leading digit run is parsed; `NaN` (no digits) and `0` are
falsy and fall back to `1`. -/
def jsParseIntOr1 (s : String) : Nat :=
  let ds := (s.toList.dropWhile Char.isWhitespace).takeWhile Char.isDigit
  match (String.mk ds).toNat? with
  | none => 1
  | some 0 => 1
  | some n => n

/-- Model of `Array.from(new Set(l))`: deduplicate keeping the first
occurrence of each element, in encounter order. -/
def jsSetDedup (l : List String) : List String :=
  l.foldl (fun acc u => if acc.contains u then acc else acc ++ [u]) []

/-- Stable insertion of one element for `jsSort`: `x` is placed before the
first element it does not have to follow, so elements comparing equal keep
their original relative order. -/
def jsSortInsert {α : Type} (cmp : α → α → Int) (x : α) : List α → List α
  | [] => [x]
  | y :: rest => if cmp x y ≤ 0 then x :: y :: rest else y :: jsSortInsert cmp x rest

/-- Model of JS `Array.prototype.sort` with a consistent comparator: a
stable sort with respect to the preorder the comparator induces. -/
def jsSort {α : Type} (cmp : α → α → Int) : List α → List α
  | [] => []
  | x :: rest => jsSortInsert cmp x (jsSort cmp rest)

/-- Lookup in an insertion-ordered association list (JS `Map.prototype.get`). -/
def mapGet {β : Type} (m : List (String × β)) (k : String) : Option β :=
  match m with
  | [] => none
  | (k2, v) :: rest => if k2 = k then some v else mapGet rest k

/-- Deletion from an association list (JS `Map.prototype.delete`; a `Map`
holds each key at most once, so removing every binding of `k` is exact). -/
def mapDelete {β : Type} (m : List (String × β)) (k : String) : List (String × β) :=
  m.filter (fun kv => decide (kv.1 ≠ k))

/-- Update/insert in an association list (JS `Map.prototype.set`): an
existing key keeps its position, a new key is appended at the end. -/
def mapSet {β : Type} (m : List (String × β)) (k : String) (v : β) : List (String × β) :=
  if m.any (fun kv => decide (kv.1 = k)) then
    m.map (fun kv => if kv.1 = k then (k, v) else kv)
  else m ++ [(k, v)]

/-! ## Data model (`src/lib/audit.ts`) -/

/-- `Severity` from `src/lib/audit.ts`. -/
inductive Severity where
  | error
  | warning
  | pass
deriving DecidableEq

/-- String form used when a severity is interpolated into a template key. -/
def sevToString : Severity → String
  | Severity.error => "error"
  | Severity.warning => "warning"
  | Severity.pass => "pass"

/-- `AuditIssue` from `src/lib/audit.ts`. -/
structure AuditIssue where
  id : String
  category : String
  severity : Severity
  title : String
  message : String
  value : Option String
  recommendation : Option String
  pageUrl : Option String
  affectedPages : Option (List String)
deriving DecidableEq

/-- Per-category counters (`{ passed, failed, warnings }`). -/
structure CatCount where
  passed : Nat
  failed : Nat
  warnings : Nat
deriving DecidableEq

/-- Per-page EEAT signals (`AuditResult["eeat"]`), all fields optional. -/
structure Eeat where
  author : Option String
  authorBio : Option Bool
  expertise : Option Bool
  trustworthiness : Option Bool
  aboutPage : Option Bool
  contactInfo : Option Bool
deriving DecidableEq

/-- `AuditResult` from `src/lib/audit.ts`. -/
structure AuditResult where
  url : String
  issues : List AuditIssue
  score : Nat
  categories : List (String × CatCount)
  imagesWithoutAlt : Option (List String)
  eeat : Option Eeat
deriving DecidableEq

/-- `ImprovementSuggestion` from `src/lib/audit.ts`. -/
structure ImprovementSuggestion where
  id : String
  title : String
  severity : Severity
  category : String
  recommendation : String
  fixExample : Option String
  affectedCount : Nat
deriving DecidableEq

/-- Site-wide aggregated EEAT summary (`FullSiteResult["eeat"]` as built by
`runBatchAudit` in `src/unnamed/part_001`). -/
structure SiteEeat where
  author : Option String
  authorBio : Bool
  expertise : Bool
  trustworthiness : Bool
  aboutPage : Bool
  contactInfo : Bool
  score : Nat
deriving DecidableEq

/-- `FullSiteResult` from `src/lib/audit.ts`, with the `eeat` summary the
`src/unnamed/part_001` pipeline adds to the returned object. -/
structure FullSiteResult where
  origin : String
  pages : List AuditResult
  aggregated : List AuditIssue
  overallScore : Nat
  categories : List (String × CatCount)
  pagesAudited : Nat
  totalUrlsInSitemap : Nat
  improvementSuggestions : List ImprovementSuggestion
  eeat : Option SiteEeat
deriving DecidableEq

/-! ## Scoring (`src/lib/audit.ts` line 352, `src/unnamed/part_001` line 72) -/

/-- `Math.round(100 * p / t)` for natural `p ≤ t`, `t > 0`, computed in
natural arithmetic: `⌊(100 p / t) + 1 / 2⌋ = (200 p + t) / (2 t)`. -/
def natRound100 (p t : Nat) : Nat :=
  (200 * p + t) / (2 * t)

/-- Number of `pass` findings in a finding list. -/
def passCount (issues : List AuditIssue) : Nat :=
  (issues.filter (fun i => decide (i.severity = Severity.pass))).length

/-- The score formula shared by `runAudit` (per-page, `src/lib/audit.ts`
lines 350-352) and the site pipeline (`src/unnamed/part_001` lines 70-72):
`total > 0 ? Math.round((passed / total) * 100) : 0`. -/
def computeScore (issues : List AuditIssue) : Nat :=
  let total := issues.length
  let passed := passCount issues
  if total > 0 then natRound100 passed total else 0

/-! ## Cross-page aggregation (`src/unnamed/part_001` lines 42-60 and 146-161) -/

/-- The grouping key `` `${i.category}|${i.severity}|${i.title}` ``. -/
def keyOf (i : AuditIssue) : String :=
  i.category ++ "|" ++ sevToString i.severity ++ "|" ++ i.title

/-- One group in the `byKey` map: the first-seen issue (the `...i` spread)
plus the accumulated `pages` array. -/
structure GroupEntry where
  issue : AuditIssue
  pages : List String
deriving DecidableEq

/-- The entry created when a key is first seen:
`{ ...i, pages: i.pageUrl ? [i.pageUrl] : [] }`. -/
def initGroup (i : AuditIssue) : GroupEntry :=
  { issue := i,
    pages :=
      match i.pageUrl with
      | some u => [u]
      | none => [] }

/-- `if (i.pageUrl && !existing.pages.includes(i.pageUrl)) existing.pages.push(i.pageUrl)`. -/
def pushPage (e : GroupEntry) (o : Option String) : GroupEntry :=
  match o with
  | none => e
  | some u => if e.pages.contains u then e else { e with pages := e.pages ++ [u] }

/-- One step of building the `byKey` map, preserving `Map` insertion order. -/
def insertIssue (m : List (String × GroupEntry)) (i : AuditIssue) : List (String × GroupEntry) :=
  match m with
  | [] => [(keyOf i, initGroup i)]
  | (k, e) :: rest =>
    if k = keyOf i then (k, pushPage e i.pageUrl) :: rest
    else (k, e) :: insertIssue rest i

/-- The `byKey` map built from the flattened, stamped issue stream. -/
def groupIssues (l : List AuditIssue) : List (String × GroupEntry) :=
  l.foldl insertIssue []

/-- Materialization of one group into an aggregated issue
(`src/unnamed/part_001` lines 56-60): `pageUrl` becomes the single page, a
page-count marker, or `undefined`; `affectedPages` keeps the page list. -/
def materializeGroup (kv : String × GroupEntry) : AuditIssue :=
  let p := kv.2.pages
  { kv.2.issue with
    pageUrl :=
      match p with
      | [] => none
      | [u] => some u
      | _ => some (toString p.length ++ " sider"),
    affectedPages := if p.isEmpty then none else some p }

/-- Stamping each issue of a page report with its page URL
(`allIssues.push({ ...issue, pageUrl: result.url })`). -/
def stampIssues (r : AuditResult) : List AuditIssue :=
  r.issues.map (fun i => { i with pageUrl := some r.url })

/-- The flattened issue stream of a page-report list. -/
def allIssuesOf (pages : List AuditResult) : List AuditIssue :=
  (pages.map stampIssues).flatten

/-- Full aggregation of a page-report list into aggregated issues, as both
`runFullSiteAudit` and `runBatchAudit` in `src/unnamed/part_001` perform it. -/
def aggregateIssues (pages : List AuditResult) : List AuditIssue :=
  (groupIssues (allIssuesOf pages)).map materializeGroup

/-- Per-category increment for `categories` (`src/unnamed/part_001` lines 62-68). -/
def bumpCat (c : CatCount) (s : Severity) : CatCount :=
  match s with
  | Severity.pass => { c with passed := c.passed + 1 }
  | Severity.error => { c with failed := c.failed + 1 }
  | Severity.warning => { c with warnings := c.warnings + 1 }

/-- The `categories` record, scanned over aggregated issues. -/
def buildCategories (issues : List AuditIssue) : List (String × CatCount) :=
  issues.foldl
    (fun m i =>
      match mapGet m i.category with
      | some c => mapSet m i.category (bumpCat c i.severity)
      | none => mapSet m i.category (bumpCat ⟨0, 0, 0⟩ i.severity))
    []

/-! ## EEAT aggregation (`src/unnamed/part_001` lines 176-210) -/

/-- JS truthiness of an optional boolean field. -/
def truthyB (o : Option Bool) : Bool :=
  o == some true

/-- JS truthiness of an optional string field (empty string is falsy). -/
def truthyS (o : Option String) : Bool :=
  match o with
  | none => false
  | some s => decide (s ≠ "")

/-- Site-wide EEAT aggregation: boolean ORs across pages, the most frequent
author (stable sort by descending count, ties first-encountered), and a
0-100 score over the six signals. -/
def aggregateEeat (pages : List AuditResult) : Option SiteEeat :=
  let allEeat := pages.filterMap (fun p => p.eeat)
  if allEeat.isEmpty then none
  else
    let hasAuthor := allEeat.any (fun e => truthyS e.author)
    let hasAuthorBio := allEeat.any (fun e => truthyB e.authorBio)
    let hasExpertise := allEeat.any (fun e => truthyB e.expertise)
    let hasTrustworthiness := allEeat.any (fun e => truthyB e.trustworthiness)
    let hasAboutPage := allEeat.any (fun e => truthyB e.aboutPage)
    let hasContactInfo := allEeat.any (fun e => truthyB e.contactInfo)
    let authors := allEeat.filterMap (fun e =>
      match e.author with
      | some s => if s ≠ "" then some s else none
      | none => none)
    let counts := authors.foldl (fun m a =>
      match mapGet m a with
      | some n => mapSet m a (n + 1)
      | none => mapSet m a 1) []
    let sorted := jsSort (fun a b => (b.2 : Int) - (a.2 : Int)) counts
    let mostCommonAuthor := sorted.head?.map Prod.fst
    let eeatScore :=
      (if hasAuthor then 1 else 0) + (if hasAuthorBio then 1 else 0) +
      (if hasExpertise then 1 else 0) + (if hasTrustworthiness then 1 else 0) +
      (if hasAboutPage then 1 else 0) + (if hasContactInfo then 1 else 0)
    some
      { author := mostCommonAuthor,
        authorBio := hasAuthorBio,
        expertise := hasExpertise,
        trustworthiness := hasTrustworthiness,
        aboutPage := hasAboutPage,
        contactInfo := hasContactInfo,
        score := natRound100 eeatScore 6 }

/-! ## Improvement suggestions (`src/unnamed/part_004` lines 35-62) -/

/-- `affectedCount` derivation from the rendered `pageUrl` field. -/
def affectedCountOf (i : AuditIssue) : Nat :=
  match i.pageUrl with
  | none => 1
  | some s => if jsIncludes s " sider" then jsParseIntOr1 s else 1

/-- One suggestion built from a non-pass aggregated issue; `fx` is the
static title-to-fix-example table `FIX_EXAMPLES`. -/
def mkSuggestion (fx : String → Option String) (n : Nat) (i : AuditIssue) :
    ImprovementSuggestion :=
  { id := "sug-" ++ toString n,
    title := i.title,
    severity := i.severity,
    category := i.category,
    recommendation := jsOrStr i.recommendation i.message,
    fixExample := fx i.title,
    affectedCount := affectedCountOf i }

/-- The suggestion list before sorting: the loop over aggregated issues,
skipping `pass` and threading the `++id` counter. -/
def buildSugList (fx : String → Option String) : Nat → List AuditIssue →
    List ImprovementSuggestion
  | _, [] => []
  | n, i :: rest =>
    if i.severity = Severity.pass then buildSugList fx n rest
    else mkSuggestion fx (n + 1) i :: buildSugList fx (n + 1) rest

/-- The comparator passed to `list.sort`: errors first, everything else tied. -/
def sugCmp (a b : ImprovementSuggestion) : Int :=
  if a.severity = Severity.error ∧ b.severity ≠ Severity.error then -1
  else if b.severity = Severity.error ∧ a.severity ≠ Severity.error then 1
  else 0

/-- `buildSuggestionsFromAggregated` from `src/unnamed/part_004`. -/
def buildSuggestionsFromAggregated (fx : String → Option String)
    (aggregated : List AuditIssue) : List ImprovementSuggestion :=
  jsSort sugCmp (buildSugList fx 0 aggregated)

/-! ## Batch audit entrypoint (`src/unnamed/part_001` lines 126-223) -/

/-- `BATCH_SIZE` from `src/unnamed/part_001`. -/
def BATCH_SIZE : Nat := 100

/-- `runBatchAudit` from `src/unnamed/part_001`, with the per-page audit as
an oracle (`none` models a thrown error or a non-2xx page, both skipped)
and the fix-example table as a parameter. -/
def runBatchAuditM (oracle : String → Option AuditResult)
    (fx : String → Option String) (urls : List String) (origin : String) :
    FullSiteResult :=
  let toAudit := urls.take BATCH_SIZE
  let pages := toAudit.filterMap oracle
  let aggregated := aggregateIssues pages
  { origin := origin,
    pages := pages,
    aggregated := aggregated,
    overallScore := computeScore aggregated,
    categories := buildCategories aggregated,
    pagesAudited := pages.length,
    totalUrlsInSitemap := toAudit.length,
    improvementSuggestions := buildSuggestionsFromAggregated fx aggregated,
    eeat := aggregateEeat pages }

/-! ## HTTP entrypoint input handling (`src/unnamed/part_009` lines 8-29) -/

/-- The request body fields the handler looks at. -/
structure AuditRequestBody where
  url : Option String
  fullSite : Bool
  urlBatch : Option (List String)
  origin : Option String
deriving DecidableEq

/-- Which pipeline the handler dispatches to (or the 400 error response). -/
inductive RouteAction where
  | batchAudit (urls : List String) (origin : String)
  | errorUrlMissing
  | fullAudit (url : String)
  | singleAudit (url : String)
deriving DecidableEq

/-- The branch after the batch check: `if (!url) 400` then full vs single. -/
def routePOSTRest (url : String) (fullSite : Bool) : RouteAction :=
  if url = "" then RouteAction.errorUrlMissing
  else if fullSite then RouteAction.fullAudit url
  else RouteAction.singleAudit url

/-- The `POST` handler's input handling (`src/unnamed/part_009`):
`const url = (body.url || "surfmore.dk").toString().trim()`, the
`urlBatch?.length` branch, then `if (!url)` and the `fullSite` dispatch. -/
def routePOST (body : AuditRequestBody) : RouteAction :=
  let url := jsTrim (jsOrStr body.url "surfmore.dk")
  let origin := jsTrim (jsOrStr body.origin url)
  match body.urlBatch with
  | some (b :: bs) =>
    RouteAction.batchAudit (((b :: bs).map jsTrim).filter (fun u => decide (u ≠ ""))) origin
  | _ => routePOSTRest url body.fullSite

/-! ## Two-tier caches (`src/lib/sitemap.ts` lines 11-102, `src/unnamed/part_003` lines 169-274) -/

/-- `CACHE_TTL` of the sitemap cache: 24 hours in milliseconds. -/
def SITEMAP_CACHE_TTL : Nat := 24 * 60 * 60 * 1000

/-- `CACHE_TTL` of the report cache: 1 hour in milliseconds. -/
def AUDIT_CACHE_TTL : Nat := 1 * 60 * 60 * 1000

/-- An in-memory cache slot `{ data, cachedAt }`; also the on-disk
`CachedAudit` record of the report cache. -/
structure CacheEntry (α : Type) where
  data : α
  cachedAt : Nat
deriving DecidableEq

/-- `SitemapResult` from `src/lib/sitemap.ts`. -/
structure SitemapResult where
  allUrls : List String
  urls : List String
  urlsToAudit : List String
  totalInSitemap : Nat
deriving DecidableEq

/-- The on-disk `CachedSitemap` record. -/
structure CachedSitemap where
  urls : List String
  totalInSitemap : Nat
  cachedAt : Nat
deriving DecidableEq

/-- The homepage-first reordering used both on cache reads and after a
fresh crawl (`src/lib/sitemap.ts` lines 62-65 and 232-234). -/
def orderHomeFirst (origin : String) (urls : List String) : List String :=
  let home := origin ++ "/"
  if urls.contains home then home :: urls.filter (fun u => decide (u ≠ home)) else urls

/-- Disk-tier half of `loadCachedSitemap` (`src/lib/sitemap.ts` lines 49-80):
the file content for this origin is `disk` (`none` models a missing or
unparsable file).  Returns the result, the updated memory tier, and the
disk state after the read (this read never writes or deletes the file). -/
def loadCachedSitemapDisk (mem1 : List (String × CacheEntry SitemapResult))
    (disk : Option CachedSitemap) (now : Nat) (origin : String) :
    Option SitemapResult × List (String × CacheEntry SitemapResult) × Option CachedSitemap :=
  match disk with
  | none => (none, mem1, disk)
  | some c =>
    if now - c.cachedAt > SITEMAP_CACHE_TTL then (none, mem1, disk)
    else
      let ordered := orderHomeFirst origin c.urls
      let r : SitemapResult := ⟨ordered, ordered, ordered, c.totalInSitemap⟩
      (some r, mapSet mem1 origin ⟨r, c.cachedAt⟩, disk)

/-- `loadCachedSitemap` (`src/lib/sitemap.ts` lines 37-81): memory tier
first (returning if fresh, evicting if expired), then the disk tier. -/
def loadCachedSitemapM (mem : List (String × CacheEntry SitemapResult))
    (disk : Option CachedSitemap) (now : Nat) (origin : String) :
    Option SitemapResult × List (String × CacheEntry SitemapResult) × Option CachedSitemap :=
  match mapGet mem origin with
  | some e =>
    if now - e.cachedAt ≤ SITEMAP_CACHE_TTL then (some e.data, mem, disk)
    else loadCachedSitemapDisk (mapDelete mem origin) disk now origin
  | none => loadCachedSitemapDisk mem disk now origin

/-- The report cache's memory-tier size cap (`src/unnamed/part_003` lines
230-235): over 50 entries, the entry with the smallest `cachedAt` (ties:
first in iteration order, via the stable sort) is evicted. -/
def evictOldest {α : Type} (m : List (String × CacheEntry α)) :
    List (String × CacheEntry α) :=
  if m.length > 50 then
    match (jsSort (fun a b => (a.2.cachedAt : Int) - (b.2.cachedAt : Int)) m).head? with
    | some kv => mapDelete m kv.1
    | none => m
  else m

/-- Disk-tier half of `loadCachedAudit` (`src/unnamed/part_003` lines
205-242).  An expired record is deleted from disk (`fs.unlink`), then
treated as absent; an unexpired record with falsy `data.origin` is treated
as absent but kept on disk. -/
def loadCachedAuditDisk (mem1 : List (String × CacheEntry FullSiteResult))
    (disk : Option (CacheEntry FullSiteResult)) (now : Nat) (domain : String) :
    Option FullSiteResult × List (String × CacheEntry FullSiteResult) ×
      Option (CacheEntry FullSiteResult) :=
  match disk with
  | none => (none, mem1, disk)
  | some c =>
    if now - c.cachedAt > AUDIT_CACHE_TTL then (none, mem1, none)
    else if c.data.origin = "" then (none, mem1, disk)
    else
      let mem2 := evictOldest mem1
      (some c.data, mapSet mem2 domain ⟨c.data, c.cachedAt⟩, disk)

/-- `loadCachedAudit` (`src/unnamed/part_003` lines 193-242). -/
def loadCachedAuditM (mem : List (String × CacheEntry FullSiteResult))
    (disk : Option (CacheEntry FullSiteResult)) (now : Nat) (domain : String) :
    Option FullSiteResult × List (String × CacheEntry FullSiteResult) ×
      Option (CacheEntry FullSiteResult) :=
  match mapGet mem domain with
  | some e =>
    if now - e.cachedAt ≤ AUDIT_CACHE_TTL then (some e.data, mem, disk)
    else loadCachedAuditDisk (mapDelete mem domain) disk now domain
  | none => loadCachedAuditDisk mem disk now domain

/-- Spec-level freshness of the memory tier at a key: an entry written at
`cachedAt` is fresh up to and including `cachedAt + ttl`. -/
def memFresh {α : Type} (mem : List (String × CacheEntry α)) (ttl now : Nat)
    (k : String) : Prop :=
  ∃ e, mapGet mem k = some e ∧ now ≤ e.cachedAt + ttl

/-- Spec-level freshness of the sitemap cache's disk record. -/
def sitemapDiskFresh (disk : Option CachedSitemap) (now : Nat) : Prop :=
  ∃ c, disk = some c ∧ now ≤ c.cachedAt + SITEMAP_CACHE_TTL

/-- Spec-level freshness (and validity) of the report cache's disk record. -/
def auditDiskFresh (disk : Option (CacheEntry FullSiteResult)) (now : Nat) : Prop :=
  ∃ c, disk = some c ∧ now ≤ c.cachedAt + AUDIT_CACHE_TTL ∧ c.data.origin ≠ ""

/-! ## Sitemap resolution (`src/lib/sitemap.ts` lines 104-247) -/

/-- The network as the crawl sees it: for each fetchable sitemap URL, the
list of entries `extractLocFromXml` yields from its body; URLs not in the
list model fetch failures (timeout, non-2xx, unreachable). -/
abbrev Net := List (String × List String)

/-- `isSitemapUrl` from `src/lib/sitemap.ts` lines 124-126. -/
def isSitemapUrl (url : String) : Bool :=
  jsIncludes url "sitemap" && (jsEndsWith url ".xml" || jsIncludes url "/sitemap")

/-- The mutable state `crawlSitemapRecursive` threads through the
recursion, plus a log of the sitemap URLs actually fetched (one entry per
`fetchText` call) to reason about fetch counts. -/
structure CrawlState where
  seenUrls : List String
  seenSitemaps : List String
  allUrls : List String
  fetchLog : List String
deriving DecidableEq

/-- The page-URL collection step (`src/lib/sitemap.ts` lines 172-177). -/
def addPageUrl (origin : String) (st : CrawlState) (url : String) : CrawlState :=
  if !(st.seenUrls.contains url) && (jsStartsWith url origin || jsStartsWith url "http") then
    { st with seenUrls := url :: st.seenUrls, allUrls := st.allUrls ++ [url] }
  else st

/-- `crawlSitemapRecursive` (`src/lib/sitemap.ts` lines 139-181), with a
recursion-depth budget `fuel` to express the function in a total setting
(the source relies on the seen-sitemap set for termination; the totality
theorem below shows a budget of `net.length + 1` always suffices, which is
the formal counterpart of that termination argument). -/
def crawlStep (net : Net) (origin : String) (fuel : Nat) (sitemapUrl : String)
    (st : CrawlState) : Option CrawlState :=
  match fuel with
  | 0 => none
  | Nat.succ f =>
    if st.seenSitemaps.contains sitemapUrl then some st
    else
      let st1 : CrawlState :=
        { st with
          seenSitemaps := sitemapUrl :: st.seenSitemaps,
          fetchLog := st.fetchLog ++ [sitemapUrl] }
      match mapGet net sitemapUrl with
      | none => some st1
      | some locs =>
        let nested := locs.filter isSitemapUrl
        let pageUrls := locs.filter (fun l => !isSitemapUrl l)
        match List.foldlM (fun s u => crawlStep net origin f u s) st1 nested with
        | none => none
        | some st2 => some (pageUrls.foldl (addPageUrl origin) st2)

/-- The crawl run with the always-sufficient budget `net.length + 1`. -/
def crawlRun (net : Net) (origin : String) (sitemapUrl : String)
    (st : CrawlState) : CrawlState :=
  (crawlStep net origin (net.length + 1) sitemapUrl st).getD st

/-- The alternative well-known sitemap paths (`src/lib/sitemap.ts` lines 203-207). -/
def alternativePaths (origin : String) : List String :=
  [origin ++ "/sitemap_index.xml", origin ++ "/sitemaps.xml", origin ++ "/sitemap1.xml"]

/-- The initial crawl over the root sitemap `origin + "/sitemap.xml"`. -/
def crawlRootPhase (net : Net) (origin : String) : CrawlState :=
  crawlRun net origin (origin ++ "/sitemap.xml") ⟨[], [], [], []⟩

/-- Root crawl plus, when it produced no URLs, the crawl of every
alternative path sharing the same seen sets (`src/lib/sitemap.ts` lines 197-219). -/
def crawlAltPhase (net : Net) (origin : String) : CrawlState :=
  let st1 := crawlRootPhase net origin
  if st1.allUrls.length = 0 then
    (alternativePaths origin).foldl (fun s p => crawlRun net origin p s) st1
  else st1

/-- The homepage fallback (`src/lib/sitemap.ts` lines 221-228). -/
def homeFallbackPhase (net : Net) (origin : String) : CrawlState :=
  let st2 := crawlAltPhase net origin
  if st2.allUrls.length = 0 then
    let home := origin ++ "/"
    if st2.seenUrls.contains home then st2
    else { st2 with seenUrls := home :: st2.seenUrls, allUrls := st2.allUrls ++ [home] }
  else st2

/-- `getUrlsFromSitemap` (`src/lib/sitemap.ts` lines 183-247) on a cache
miss or force refresh: crawl, fall back, deduplicate, homepage first. -/
def getUrlsFromSitemapM (net : Net) (origin : String) : SitemapResult :=
  let st3 := homeFallbackPhase net origin
  let unique := jsSetDedup st3.allUrls
  let ordered := orderHomeFirst origin unique
  ⟨ordered, ordered, ordered, unique.length⟩

/-- The number of fetchable sitemaps not yet marked seen: the decreasing
quantity behind the source's termination argument. -/
def crawlMeasure (net : Net) (st : CrawlState) : Nat :=
  (net.filter (fun kv => !(st.seenSitemaps.contains kv.1))).length

/-- The crawl-state invariant: no sitemap fetched twice, every fetched
sitemap marked seen, and the seen-URL set holding exactly the collected
URLs. -/
def crawlInv (st : CrawlState) : Prop :=
  st.fetchLog.Nodup ∧ (∀ x ∈ st.fetchLog, x ∈ st.seenSitemaps) ∧
    (∀ x, x ∈ st.seenUrls ↔ x ∈ st.allUrls)

/-- The aggregated finding the grouping scenario below produces: first-seen
fields from `findingA`, a two-page marker, both page URLs. -/
def agg0 : AuditIssue :=
  ⟨"idA", "Meta", Severity.error, "Missing title", "msg A", some "vA", some "recA",
    some "2 sider", some ["https://e.x/a", "https://e.x/b"]⟩

/-- One key's view of a single grouping step: the first occurrence of a key
creates its group, later occurrences only accumulate the page URL.  Used to
specify what the `byKey` fold computes per key. -/
def accumGroup (o : Option GroupEntry) (i : AuditIssue) : Option GroupEntry :=
  match o with
  | none => some (initGroup i)
  | some e => some (pushPage e i.pageUrl)

/-! ## Concrete inputs used to exercise the theorems on closed data -/

/-- A cyclic two-sitemap network: each sitemap references the other, and
each contributes one page. -/
def netCyc : Net :=
  [("https://e.x/sitemap.xml", ["https://e.x/sub/sitemap.xml", "https://e.x/a"]),
   ("https://e.x/sub/sitemap.xml", ["https://e.x/sitemap.xml", "https://e.x/b"])]


/-- A concrete passing finding. -/
def issueP : AuditIssue :=
  ⟨"p1", "Meta", Severity.pass, "Title present", "ok", none, none, none, none⟩

/-- A concrete failing finding. -/
def issueE : AuditIssue :=
  ⟨"e1", "Meta", Severity.error, "Missing description", "missing", none, none, none, none⟩

/-- A concrete warning finding. -/
def issueW : AuditIssue :=
  ⟨"w1", "Images", Severity.warning, "Image without alt", "no alt", none, none, none, none⟩

/-- First-seen finding of the aggregation scenario: key
`(Meta, error, Missing title)`, message mentioning page A. -/
def findingA : AuditIssue :=
  ⟨"idA", "Meta", Severity.error, "Missing title", "msg A", some "vA", some "recA", none, none⟩

/-- Second finding with the same key but a different message and value. -/
def findingB : AuditIssue :=
  ⟨"idB", "Meta", Severity.error, "Missing title", "msg B", some "vB", none, none, none⟩

/-- Page report A of the aggregation scenario. -/
def pageA : AuditResult :=
  ⟨"https://e.x/a", [findingA], 0, [], none, none⟩

/-- Page report B of the aggregation scenario. -/
def pageB : AuditResult :=
  ⟨"https://e.x/b", [findingB], 0, [], none, none⟩

/-- A one-sitemap network: the root sitemap lists two pages and the
homepage. -/
def net3 : Net :=
  [("https://e.x/sitemap.xml", ["https://e.x/a", "https://e.x/", "https://e.x/b"])]

/-- A concrete resolved sitemap payload. -/
def smr0 : SitemapResult :=
  ⟨["https://e.x/"], ["https://e.x/"], ["https://e.x/"], 1⟩

/-- A memory tier holding one sitemap entry cached at time 10. -/
def memC6 : List (String × CacheEntry SitemapResult) :=
  [("https://e.x", ⟨smr0, 10⟩)]

/-- A concrete (valid) site report payload. -/
def fsr0 : FullSiteResult :=
  ⟨"https://e.x", [], [], 0, [], 0, 0, [], none⟩

/-- An on-disk report-cache record written at time 0. -/
def c7disk : CacheEntry FullSiteResult :=
  ⟨fsr0, 0⟩

/-! ## Score lemmas and claim C2 -/

theorem natRound100_le_100 (p t : Nat) (hp : p ≤ t) (ht : 0 < t) :
    natRound100 p t ≤ 100 := by
  unfold natRound100
  have h2t : 0 < 2 * t := by omega
  have h : (200 * p + t) / (2 * t) < 101 := by
    rw [Nat.div_lt_iff_lt_mul h2t]
    omega
  omega

theorem natRound100_eq_floor (p t : Nat) (ht : 0 < t) :
    natRound100 p t = ⌊(100 * (p : ℚ)) / (t : ℚ) + 1 / 2⌋₊ := by
  have ht' : (t : ℚ) ≠ 0 := by exact_mod_cast ht.ne'
  have h1 : (100 * (p : ℚ)) / (t : ℚ) + 1 / 2 =
      ((200 * p + t : ℕ) : ℚ) / ((2 * t : ℕ) : ℚ) := by
    push_cast
    field_simp
    ring
  rw [h1, Nat.floor_div_nat, Nat.floor_natCast]
  rfl

theorem passCount_le_length (issues : List AuditIssue) :
    passCount issues ≤ issues.length :=
  List.length_filter_le _ _

/-- Claim C2: the overall score is `round(100 × passCount / total)` over
the aggregated findings when at least one exists and `0` otherwise, so it
always lies between 0 and 100; the per-page score in a `PageReport` is the
same formula (`computeScore` embeds the identical lines of `runAudit` and
of the site pipeline, and `runBatchAuditM` computes its `overallScore` by
applying it to the aggregated findings). -/
theorem score_formula_and_bounds :
    (∀ issues : List AuditIssue,
      computeScore issues ≤ 100 ∧
      (issues = [] → computeScore issues = 0) ∧
      (issues ≠ [] →
        computeScore issues =
          ⌊(100 * (passCount issues : ℚ)) / ((issues.length : ℕ) : ℚ) + 1 / 2⌋₊)) ∧
    (∀ (oracle : String → Option AuditResult) (fx : String → Option String)
      (urls : List String) (origin : String),
      (runBatchAuditM oracle fx urls origin).overallScore =
        computeScore (runBatchAuditM oracle fx urls origin).aggregated) := by
  constructor
  · intro issues
    refine ⟨?_, ?_, ?_⟩
    · cases issues with
      | nil => simp [computeScore]
      | cons i rest =>
        have hlen : 0 < (i :: rest).length := by simp
        have hp : passCount (i :: rest) ≤ (i :: rest).length := passCount_le_length _
        simpa [computeScore, hlen] using natRound100_le_100 _ _ hp hlen
    · intro h
      subst h
      simp [computeScore]
    · intro h
      have hlen : 0 < issues.length := List.length_pos.mpr h
      rw [show computeScore issues = natRound100 (passCount issues) issues.length by
        simp [computeScore, hlen]]
      exact natRound100_eq_floor _ _ hlen
  · intro oracle fx urls origin
    rfl

/-- Witness for the score claim at concrete inputs: one pass and one error
give a score that matches the rational rounding formula, and the empty
finding list scores 0. -/
theorem score_formula_and_bounds_witness :
    computeScore [issueP, issueE] =
      ⌊(100 * (passCount [issueP, issueE] : ℚ)) /
        ((([issueP, issueE] : List AuditIssue).length : ℕ) : ℚ) + 1 / 2⌋₊ ∧
    computeScore ([] : List AuditIssue) = 0 ∧
    computeScore [issueP, issueE] ≤ 100 :=
  ⟨(score_formula_and_bounds.1 [issueP, issueE]).2.2 (by decide),
   (score_formula_and_bounds.1 []).2.1 rfl,
   (score_formula_and_bounds.1 [issueP, issueE]).1⟩

/-! ## Suggestion lemmas and claim C8 -/

theorem jsSortInsert_sugCmp_partition (x : ImprovementSuggestion)
    (E N : List ImprovementSuggestion)
    (hE : ∀ y ∈ E, y.severity = Severity.error)
    (hN : ∀ y ∈ N, y.severity ≠ Severity.error) :
    jsSortInsert sugCmp x (E ++ N) =
      if x.severity = Severity.error then (x :: E) ++ N else E ++ (x :: N) := by
  induction E with
  | nil =>
    simp only [List.nil_append]
    cases N with
    | nil => by_cases hx : x.severity = Severity.error <;> simp [jsSortInsert, hx]
    | cons y ys =>
      have hy : y.severity ≠ Severity.error := hN y (by simp)
      by_cases hx : x.severity = Severity.error
      · have hcmp : sugCmp x y ≤ 0 := by simp [sugCmp, hx, hy]
        simp [jsSortInsert, if_pos hcmp, hx]
      · have hcmp : sugCmp x y ≤ 0 := by simp [sugCmp, hx, hy]
        simp [jsSortInsert, if_pos hcmp, hx]
  | cons y ys ih =>
    have hy : y.severity = Severity.error := hE y (by simp)
    have ih' := ih (fun z hz => hE z (by simp [hz]))
    by_cases hx : x.severity = Severity.error
    · have hcmp : sugCmp x y ≤ 0 := by simp [sugCmp, hx, hy]
      simp only [List.cons_append, jsSortInsert, if_pos hcmp]
      simp [hx]
    · have hcmp : ¬ (sugCmp x y ≤ 0) := by simp [sugCmp, hx, hy]
      simp only [List.cons_append, jsSortInsert, if_neg hcmp, List.append_eq]
      rw [ih', if_neg hx, if_neg hx]

theorem jsSort_sugCmp_partition (l : List ImprovementSuggestion) :
    jsSort sugCmp l =
      l.filter (fun s => decide (s.severity = Severity.error)) ++
      l.filter (fun s => decide (s.severity ≠ Severity.error)) := by
  induction l with
  | nil => rfl
  | cons x xs ih =>
    rw [jsSort, ih, jsSortInsert_sugCmp_partition]
    · by_cases hx : x.severity = Severity.error <;> simp [hx, List.filter_cons]
    · intro y hy
      exact of_decide_eq_true (List.mem_filter.mp hy).2
    · intro y hy
      exact of_decide_eq_true (List.mem_filter.mp hy).2

theorem buildSugList_keys (fx : String → Option String) :
    ∀ (agg : List AuditIssue) (n : Nat),
      (buildSugList fx n agg).map (fun s => (s.title, s.severity, s.category)) =
        (agg.filter (fun i => decide (i.severity ≠ Severity.pass))).map
          (fun i => (i.title, i.severity, i.category)) := by
  intro agg
  induction agg with
  | nil => intro n; rfl
  | cons i rest ih =>
    intro n
    by_cases hi : i.severity = Severity.pass
    · simp [buildSugList, hi, List.filter_cons, ih n]
    · simp [buildSugList, hi, List.filter_cons, ih (n + 1), mkSuggestion]

theorem buildSugList_nonpass (fx : String → Option String) :
    ∀ (agg : List AuditIssue) (n : Nat) (s : ImprovementSuggestion),
      s ∈ buildSugList fx n agg → s.severity ≠ Severity.pass := by
  intro agg
  induction agg with
  | nil => intro n s h; cases h
  | cons i rest ih =>
    intro n s h
    by_cases hi : i.severity = Severity.pass
    · rw [buildSugList, if_pos hi] at h
      exact ih n s h
    · rw [buildSugList, if_neg hi] at h
      rcases List.mem_cons.mp h with h1 | h1
      · subst h1
        exact hi
      · exact ih (n + 1) s h1

/-- Claim C8: the suggestion list holds one suggestion per non-pass
aggregated finding (none for pass findings, shown by the title/severity/
category correspondence in original order), and the sorted output is
exactly the error-severity suggestions followed by the others, each block
in original order (so all errors precede all warnings and equal severities
keep the aggregated-finding order). -/
theorem suggestions_one_per_nonpass_and_sorted :
    ∀ (fx : String → Option String) (aggregated : List AuditIssue),
      buildSuggestionsFromAggregated fx aggregated =
        (buildSugList fx 0 aggregated).filter
            (fun s => decide (s.severity = Severity.error)) ++
          (buildSugList fx 0 aggregated).filter
            (fun s => decide (s.severity ≠ Severity.error)) ∧
      (buildSugList fx 0 aggregated).map (fun s => (s.title, s.severity, s.category)) =
        (aggregated.filter (fun i => decide (i.severity ≠ Severity.pass))).map
          (fun i => (i.title, i.severity, i.category)) ∧
      ∀ s ∈ buildSuggestionsFromAggregated fx aggregated, s.severity ≠ Severity.pass := by
  intro fx aggregated
  refine ⟨jsSort_sugCmp_partition _, buildSugList_keys fx aggregated 0, ?_⟩
  intro s hs
  rw [buildSuggestionsFromAggregated, jsSort_sugCmp_partition] at hs
  rcases List.mem_append.mp hs with h | h
  · exact buildSugList_nonpass fx aggregated 0 s (List.mem_filter.mp h).1
  · exact buildSugList_nonpass fx aggregated 0 s (List.mem_filter.mp h).1

/-- Witness for the suggestion claim at a concrete input: with findings
error, pass, warning, the membership conjunct yields that the suggestion
built from the error finding is not a pass suggestion. -/
theorem suggestions_one_per_nonpass_and_sorted_witness :
    (mkSuggestion (fun _ => none) 1 issueE).severity ≠ Severity.pass :=
  (suggestions_one_per_nonpass_and_sorted (fun _ => none) [issueE, issueP, issueW]).2.2
    (mkSuggestion (fun _ => none) 1 issueE) (by decide)

/-! ## Claim C10: the batch entrypoint audits only the first `BATCH_SIZE` URLs -/

/-- Claim C10: for an input longer than `BATCH_SIZE = 100`, `runBatchAudit`
reports `totalUrlsInSitemap = min(length, 100)` and its whole result equals
the result on just the first 100 URLs, so later URLs are never consulted
(never fetched) and never appear in any output field. -/
theorem batch_audit_first_100_only :
    ∀ (oracle : String → Option AuditResult) (fx : String → Option String)
      (urls : List String) (origin : String),
      urls.length > BATCH_SIZE →
      (runBatchAuditM oracle fx urls origin).totalUrlsInSitemap =
          min urls.length BATCH_SIZE ∧
        runBatchAuditM oracle fx urls origin =
          runBatchAuditM oracle fx (urls.take BATCH_SIZE) origin := by
  intro oracle fx urls origin h
  constructor
  · show (urls.take BATCH_SIZE).length = min urls.length BATCH_SIZE
    simp [List.length_take, Nat.min_comm]
  · simp [runBatchAuditM, List.take_take]

/-- Witness for the batch-slice claim on a concrete 101-URL input. -/
theorem batch_audit_first_100_only_witness :
    (runBatchAuditM (fun _ => none) (fun _ => none)
        (List.replicate 101 "https://e.x/p") "https://e.x").totalUrlsInSitemap =
      min (List.replicate 101 "https://e.x/p").length BATCH_SIZE :=
  (batch_audit_first_100_only (fun _ => none) (fun _ => none)
    (List.replicate 101 "https://e.x/p") "https://e.x" (by decide)).1

/-! ## Claim C9 (corrected): empty-URL handling of the POST route -/

/-- Counterexample to claim C9 as stated: an empty caller-supplied `url` is
not rejected; the handler substitutes the default domain `"surfmore.dk"`
and runs the full pipeline on it. -/
theorem route_empty_url_counterexample :
    routePOST ⟨some "", true, none, none⟩ = RouteAction.fullAudit "surfmore.dk" ∧
    routePOST ⟨some "", true, none, none⟩ ≠ RouteAction.errorUrlMissing := by
  decide

/-- Claim C9 amended: an empty or missing `url` falls back to the default
domain `"surfmore.dk"` (the pipeline runs on that substitute); only a
nonempty whitespace-only `url` — which `||` keeps but `trim` empties —
reaches the user-visible `"URL mangler"` 400 error. -/
theorem route_url_validation_amended :
    ∀ (b : Bool) (s : String),
      (s ≠ "" → jsTrim s = "" →
        routePOST ⟨some s, b, none, none⟩ = RouteAction.errorUrlMissing) ∧
      routePOST ⟨some "", b, none, none⟩ =
        (if b then RouteAction.fullAudit "surfmore.dk"
         else RouteAction.singleAudit "surfmore.dk") ∧
      routePOST ⟨none, b, none, none⟩ =
        (if b then RouteAction.fullAudit "surfmore.dk"
         else RouteAction.singleAudit "surfmore.dk") := by
  intro b s
  refine ⟨?_, ?_, ?_⟩
  · intro hs ht
    simp [routePOST, jsOrStr, hs, ht, routePOSTRest]
  · cases b <;> decide
  · cases b <;> decide

/-- Witness for the amended route claim: a whitespace-only URL is rejected
with the 400 error. -/
theorem route_url_validation_amended_witness :
    routePOST ⟨some " ", true, none, none⟩ = RouteAction.errorUrlMissing :=
  (route_url_validation_amended true " ").1 (by decide) (by decide)

/-! ## Association-map lemmas -/

theorem mapGet_mapDelete_self {β : Type} (m : List (String × β)) (k : String) :
    mapGet (mapDelete m k) k = none := by
  induction m with
  | nil => rfl
  | cons kv rest ih =>
    by_cases h : kv.1 = k
    · simpa [mapDelete, List.filter_cons, h] using ih
    · simpa [mapDelete, List.filter_cons, h, mapGet] using ih

theorem mapSet_cons_ne {β : Type} (kv : String × β) (rest : List (String × β))
    (k : String) (v : β) (h : kv.1 ≠ k) :
    mapSet (kv :: rest) k v = kv :: mapSet rest k v := by
  by_cases hr : rest.any (fun kv2 => decide (kv2.1 = k))
  · simp [mapSet, List.any_cons, h, hr]
  · simp [mapSet, List.any_cons, h, hr]

theorem mapGet_mapSet_self {β : Type} (m : List (String × β)) (k : String) (v : β) :
    mapGet (mapSet m k v) k = some v := by
  induction m with
  | nil => simp [mapSet, mapGet]
  | cons kv rest ih =>
    by_cases h : kv.1 = k
    · have hany : (kv :: rest).any (fun kv2 => decide (kv2.1 = k)) = true := by
        simp [List.any_cons, h]
      simp [mapSet, hany, mapGet, h]
    · rw [mapSet_cons_ne kv rest k v h]
      simpa [mapGet, h] using ih

/-! ## Cache-tier lemmas and claim C6 -/

theorem loadCachedSitemapDisk_isSome (mem1 : List (String × CacheEntry SitemapResult))
    (disk : Option CachedSitemap) (now : Nat) (origin : String) :
    (loadCachedSitemapDisk mem1 disk now origin).1.isSome ↔ sitemapDiskFresh disk now := by
  cases disk with
  | none =>
    simp [loadCachedSitemapDisk, sitemapDiskFresh]
  | some c =>
    by_cases h : now - c.cachedAt > SITEMAP_CACHE_TTL
    · rw [loadCachedSitemapDisk, if_pos h]
      simp only [Option.isSome_none, sitemapDiskFresh]
      constructor
      · intro hfalse
        cases hfalse
      · rintro ⟨c2, hc2, hfr⟩
        cases Option.some.inj hc2
        omega
    · rw [loadCachedSitemapDisk, if_neg h]
      simp only [Option.isSome_some, sitemapDiskFresh, true_iff]
      exact ⟨c, rfl, by omega⟩

theorem loadCachedSitemapDisk_mem_fresh (mem1 : List (String × CacheEntry SitemapResult))
    (disk : Option CachedSitemap) (now : Nat) (origin : String)
    (hmem1 : mapGet mem1 origin = none) :
    ∀ e, mapGet (loadCachedSitemapDisk mem1 disk now origin).2.1 origin = some e →
      now ≤ e.cachedAt + SITEMAP_CACHE_TTL := by
  intro e he
  cases disk with
  | none =>
    rw [loadCachedSitemapDisk] at he
    rw [hmem1] at he
    cases he
  | some c =>
    by_cases h : now - c.cachedAt > SITEMAP_CACHE_TTL
    · rw [loadCachedSitemapDisk, if_pos h] at he
      rw [hmem1] at he
      cases he
    · rw [loadCachedSitemapDisk, if_neg h] at he
      rw [mapGet_mapSet_self] at he
      cases Option.some.inj he
      show now ≤ c.cachedAt + SITEMAP_CACHE_TTL
      omega

theorem loadCachedAuditDisk_isSome (mem1 : List (String × CacheEntry FullSiteResult))
    (disk : Option (CacheEntry FullSiteResult)) (now : Nat) (domain : String) :
    (loadCachedAuditDisk mem1 disk now domain).1.isSome ↔ auditDiskFresh disk now := by
  cases disk with
  | none =>
    simp [loadCachedAuditDisk, auditDiskFresh]
  | some c =>
    by_cases h : now - c.cachedAt > AUDIT_CACHE_TTL
    · rw [loadCachedAuditDisk, if_pos h]
      simp only [Option.isSome_none, auditDiskFresh]
      constructor
      · intro hfalse
        cases hfalse
      · rintro ⟨c2, hc2, hfr, hv⟩
        cases Option.some.inj hc2
        omega
    · by_cases hv : c.data.origin = ""
      · rw [loadCachedAuditDisk, if_neg h, if_pos hv]
        simp only [Option.isSome_none, auditDiskFresh]
        constructor
        · intro hfalse
          cases hfalse
        · rintro ⟨c2, hc2, hfr, hval⟩
          cases Option.some.inj hc2
          exact absurd hv hval
      · rw [loadCachedAuditDisk, if_neg h, if_neg hv]
        simp only [Option.isSome_some, auditDiskFresh, true_iff]
        exact ⟨c, rfl, by omega, hv⟩

theorem loadCachedAuditDisk_mem_fresh (mem1 : List (String × CacheEntry FullSiteResult))
    (disk : Option (CacheEntry FullSiteResult)) (now : Nat) (domain : String)
    (hmem1 : mapGet mem1 domain = none) :
    ∀ e, mapGet (loadCachedAuditDisk mem1 disk now domain).2.1 domain = some e →
      now ≤ e.cachedAt + AUDIT_CACHE_TTL := by
  intro e he
  cases disk with
  | none =>
    rw [loadCachedAuditDisk] at he
    rw [hmem1] at he
    cases he
  | some c =>
    by_cases h : now - c.cachedAt > AUDIT_CACHE_TTL
    · rw [loadCachedAuditDisk, if_pos h] at he
      rw [hmem1] at he
      cases he
    · by_cases hv : c.data.origin = ""
      · rw [loadCachedAuditDisk, if_neg h, if_pos hv] at he
        rw [hmem1] at he
        cases he
      · rw [loadCachedAuditDisk, if_neg h, if_neg hv] at he
        rw [mapGet_mapSet_self] at he
        cases Option.some.inj he
        show now ≤ c.cachedAt + AUDIT_CACHE_TTL
        omega

/-- Claim C6: neither cache tier ever returns a stale entry.  For both
caches the read returns a payload exactly when the memory tier holds an
entry with `now ≤ cachedAt + TTL` (so a write at `T` is served up to and
including `T + TTL` and treated as absent from `T + TTL + 1` on) or the
disk tier holds a fresh (and, for the report cache, valid) record; and
after any read, whatever the memory tier holds at the key is fresh — in
particular an expired memory entry has been evicted. -/
theorem cache_ttl_never_returns_stale :
    (∀ (mem : List (String × CacheEntry SitemapResult)) (disk : Option CachedSitemap)
      (now : Nat) (origin : String),
      ((loadCachedSitemapM mem disk now origin).1.isSome ↔
        memFresh mem SITEMAP_CACHE_TTL now origin ∨ sitemapDiskFresh disk now) ∧
      ∀ e, mapGet (loadCachedSitemapM mem disk now origin).2.1 origin = some e →
        now ≤ e.cachedAt + SITEMAP_CACHE_TTL) ∧
    (∀ (mem : List (String × CacheEntry FullSiteResult))
      (disk : Option (CacheEntry FullSiteResult)) (now : Nat) (domain : String),
      ((loadCachedAuditM mem disk now domain).1.isSome ↔
        memFresh mem AUDIT_CACHE_TTL now domain ∨ auditDiskFresh disk now) ∧
      ∀ e, mapGet (loadCachedAuditM mem disk now domain).2.1 domain = some e →
        now ≤ e.cachedAt + AUDIT_CACHE_TTL) := by
  constructor
  · intro mem disk now origin
    cases hmem : mapGet mem origin with
    | none =>
      have hmemf : ¬ memFresh mem SITEMAP_CACHE_TTL now origin := by
        rintro ⟨e, he, hfr⟩
        rw [hmem] at he
        cases he
      simp only [loadCachedSitemapM, hmem]
      exact ⟨by rw [loadCachedSitemapDisk_isSome]; tauto,
        loadCachedSitemapDisk_mem_fresh mem disk now origin hmem⟩
    | some e =>
      by_cases hfr : now - e.cachedAt ≤ SITEMAP_CACHE_TTL
      · simp only [loadCachedSitemapM, hmem, if_pos hfr]
        constructor
        · simp only [Option.isSome_some, true_iff]
          exact Or.inl ⟨e, hmem, by omega⟩
        · intro e2 he2
          cases Option.some.inj he2
          omega
      · have hmemf : ¬ memFresh mem SITEMAP_CACHE_TTL now origin := by
          rintro ⟨e2, he2, hfr2⟩
          rw [hmem] at he2
          cases Option.some.inj he2
          omega
        simp only [loadCachedSitemapM, hmem, if_neg hfr]
        exact ⟨by rw [loadCachedSitemapDisk_isSome]; tauto,
          loadCachedSitemapDisk_mem_fresh _ disk now origin (mapGet_mapDelete_self mem origin)⟩
  · intro mem disk now domain
    cases hmem : mapGet mem domain with
    | none =>
      have hmemf : ¬ memFresh mem AUDIT_CACHE_TTL now domain := by
        rintro ⟨e, he, hfr⟩
        rw [hmem] at he
        cases he
      simp only [loadCachedAuditM, hmem]
      exact ⟨by rw [loadCachedAuditDisk_isSome]; tauto,
        loadCachedAuditDisk_mem_fresh mem disk now domain hmem⟩
    | some e =>
      by_cases hfr : now - e.cachedAt ≤ AUDIT_CACHE_TTL
      · simp only [loadCachedAuditM, hmem, if_pos hfr]
        constructor
        · simp only [Option.isSome_some, true_iff]
          exact Or.inl ⟨e, hmem, by omega⟩
        · intro e2 he2
          cases Option.some.inj he2
          omega
      · have hmemf : ¬ memFresh mem AUDIT_CACHE_TTL now domain := by
          rintro ⟨e2, he2, hfr2⟩
          rw [hmem] at he2
          cases Option.some.inj he2
          omega
        simp only [loadCachedAuditM, hmem, if_neg hfr]
        exact ⟨by rw [loadCachedAuditDisk_isSome]; tauto,
          loadCachedAuditDisk_mem_fresh _ disk now domain (mapGet_mapDelete_self mem domain)⟩

/-- Witness for the TTL claim on concrete data: the sitemap entry cached at
time 10 is still returned at `10 + TTL`, the read at `10 + TTL + 1` reports
absent, and the memory slot left at the key after the fresh read is fresh. -/
theorem cache_ttl_never_returns_stale_witness :
    (loadCachedSitemapM memC6 none (10 + SITEMAP_CACHE_TTL) "https://e.x").1.isSome = true ∧
    (loadCachedSitemapM memC6 none (10 + SITEMAP_CACHE_TTL + 1) "https://e.x").1.isSome = false ∧
    10 + SITEMAP_CACHE_TTL ≤ 10 + SITEMAP_CACHE_TTL :=
  ⟨(cache_ttl_never_returns_stale.1 memC6 none (10 + SITEMAP_CACHE_TTL)
      "https://e.x").1.mpr (Or.inl ⟨⟨smr0, 10⟩, by decide, le_refl _⟩),
   by decide,
   (cache_ttl_never_returns_stale.1 memC6 none (10 + SITEMAP_CACHE_TTL)
      "https://e.x").2 ⟨smr0, 10⟩ (by decide)⟩

/-! ## Claim C7 (corrected): disk effect of an expired report-cache read -/

/-- Counterexample to claim C7 as stated: a report-cache read that finds
the on-disk record expired does not leave the file unchanged — the record
is gone (`fs.unlink`) after the read. -/
theorem report_cache_expired_read_counterexample :
    (loadCachedAuditM [] (some c7disk) (AUDIT_CACHE_TTL + 1) "e.x").1 = none ∧
    (loadCachedAuditM [] (some c7disk) (AUDIT_CACHE_TTL + 1) "e.x").2.2 ≠ some c7disk := by
  decide

/-- Claim C7 amended: a report-cache read that reaches the persistent tier
and finds the record expired treats it as absent and deletes it from disk;
it is the sitemap cache whose reads always leave the disk record
unchanged. -/
theorem report_cache_expired_read_deletes_disk :
    (∀ (mem : List (String × CacheEntry FullSiteResult))
      (disk : Option (CacheEntry FullSiteResult)) (now : Nat) (domain : String)
      (c : CacheEntry FullSiteResult),
      disk = some c → now - c.cachedAt > AUDIT_CACHE_TTL →
      (∀ e, mapGet mem domain = some e → now - e.cachedAt > AUDIT_CACHE_TTL) →
      (loadCachedAuditM mem disk now domain).1 = none ∧
      (loadCachedAuditM mem disk now domain).2.2 = none) ∧
    (∀ (mem : List (String × CacheEntry SitemapResult)) (disk : Option CachedSitemap)
      (now : Nat) (origin : String),
      (loadCachedSitemapM mem disk now origin).2.2 = disk) := by
  constructor
  · intro mem disk now domain c hdisk hstale hmem
    subst hdisk
    cases hget : mapGet mem domain with
    | none =>
      simp only [loadCachedAuditM, hget, loadCachedAuditDisk, if_pos hstale]
      exact ⟨by trivial, by trivial⟩
    | some e =>
      have he := hmem e hget
      simp only [loadCachedAuditM, hget, if_neg (by omega : ¬ now - e.cachedAt ≤ AUDIT_CACHE_TTL),
        loadCachedAuditDisk, if_pos hstale]
      exact ⟨by trivial, by trivial⟩
  · intro mem disk now origin
    cases hget : mapGet mem origin with
    | none =>
      simp only [loadCachedSitemapM, hget]
      cases disk with
      | none => rfl
      | some c =>
        by_cases h : now - c.cachedAt > SITEMAP_CACHE_TTL
        · simp [loadCachedSitemapDisk, h]
        · simp [loadCachedSitemapDisk, h]
    | some e =>
      by_cases hfr : now - e.cachedAt ≤ SITEMAP_CACHE_TTL
      · simp only [loadCachedSitemapM, hget, if_pos hfr]
      · simp only [loadCachedSitemapM, hget, if_neg hfr]
        cases disk with
        | none => rfl
        | some c =>
          by_cases h : now - c.cachedAt > SITEMAP_CACHE_TTL
          · simp [loadCachedSitemapDisk, h]
          · simp [loadCachedSitemapDisk, h]

/-- Witness for the amended report-cache claim at concrete data: the
expired record written at time 0 is gone from disk after a read at
`TTL + 1`. -/
theorem report_cache_expired_read_deletes_disk_witness :
    (loadCachedAuditM [] (some c7disk) (AUDIT_CACHE_TTL + 1) "e.x").2.2 = none :=
  (report_cache_expired_read_deletes_disk.1 [] (some c7disk) (AUDIT_CACHE_TTL + 1)
    "e.x" c7disk rfl (by decide) (fun e he => Option.noConfusion he)).2

/-! ## Crawl lemmas: measure, invariant, termination -/

theorem mapGet_mem {β : Type} (m : List (String × β)) (k : String) (v : β)
    (h : mapGet m k = some v) : (k, v) ∈ m := by
  induction m with
  | nil => cases h
  | cons kv rest ih =>
    rw [mapGet] at h
    by_cases hk : kv.1 = k
    · rw [if_pos hk] at h
      cases Option.some.inj h
      exact List.mem_cons.mpr (Or.inl (by cases kv; simp_all))
    · rw [if_neg hk] at h
      exact List.mem_cons.mpr (Or.inr (ih h))

theorem filter_length_le_of_imp {α : Type} (l : List α) (p q : α → Bool)
    (h : ∀ a ∈ l, p a = true → q a = true) :
    (l.filter p).length ≤ (l.filter q).length := by
  induction l with
  | nil => simp
  | cons a t ih =>
    have ih' := ih (fun b hb => h b (by simp [hb]))
    by_cases hp : p a = true
    · have hq := h a (by simp) hp
      simp only [List.filter_cons, hp, hq, if_pos]
      simpa using ih'
    · by_cases hq : q a = true <;>
        simp only [List.filter_cons, hp, hq, if_pos, if_neg, Bool.false_eq_true] <;>
        simp <;> omega

theorem filter_length_lt_of_witness {α : Type} (l : List α) (p q : α → Bool)
    (h : ∀ a ∈ l, p a = true → q a = true) (a : α) (ha : a ∈ l) (hq : q a = true)
    (hp : p a = false) : (l.filter p).length < (l.filter q).length := by
  induction l with
  | nil => cases ha
  | cons b t ih =>
    have himp : ∀ c ∈ t, p c = true → q c = true := fun c hc => h c (by simp [hc])
    rcases List.mem_cons.mp ha with rfl | hat
    · have hle : (t.filter p).length ≤ (t.filter q).length :=
        filter_length_le_of_imp t p q himp
      simp only [List.filter_cons, hp, hq, if_pos, Bool.false_eq_true, if_neg]
      simp
      omega
    · have ihh := ih himp hat
      by_cases hpb : p b = true
      · have hqb := h b (by simp) hpb
        simp only [List.filter_cons, hpb, hqb, if_pos]
        simpa using ihh
      · by_cases hqb : q b = true <;>
          simp only [List.filter_cons, hpb, hqb, Bool.false_eq_true, if_neg, if_pos] <;>
          simp <;> omega

theorem crawlMeasure_mono (net : Net) (st st' : CrawlState)
    (h : ∀ x ∈ st.seenSitemaps, x ∈ st'.seenSitemaps) :
    crawlMeasure net st' ≤ crawlMeasure net st := by
  apply filter_length_le_of_imp
  intro kv hkv hp
  have hp' : kv.1 ∉ st'.seenSitemaps := by simpa using hp
  have hnot : kv.1 ∉ st.seenSitemaps := fun hmem => hp' (h _ hmem)
  simpa using hnot

theorem crawlMeasure_strict (net : Net) (st st1 : CrawlState) (u : String)
    (locs : List String) (hu : u ∉ st.seenSitemaps) (hnet : mapGet net u = some locs)
    (hseen : st1.seenSitemaps = u :: st.seenSitemaps) :
    crawlMeasure net st1 < crawlMeasure net st := by
  apply filter_length_lt_of_witness _ _ _ _ (u, locs) (mapGet_mem net u locs hnet)
  · simpa using hu
  · simp [hseen]
  · intro kv hkv hp
    have hp' : kv.1 ∉ st1.seenSitemaps := by simpa using hp
    have : kv.1 ∉ st.seenSitemaps := fun hmem => hp' (by simp [hseen, hmem])
    simpa using this

theorem crawlStep_zero (net : Net) (origin u : String) (st : CrawlState) :
    crawlStep net origin 0 u st = none := by
  rw [crawlStep]

theorem crawlStep_succ (net : Net) (origin : String) (f : Nat) (u : String)
    (st : CrawlState) :
    crawlStep net origin (f + 1) u st =
      if st.seenSitemaps.contains u then some st
      else
        let st1 : CrawlState :=
          { st with
            seenSitemaps := u :: st.seenSitemaps,
            fetchLog := st.fetchLog ++ [u] }
        match mapGet net u with
        | none => some st1
        | some locs =>
          match List.foldlM (fun s u2 => crawlStep net origin f u2 s) st1
              (locs.filter isSitemapUrl) with
          | none => none
          | some st2 =>
            some ((locs.filter (fun l2 => !isSitemapUrl l2)).foldl (addPageUrl origin) st2) := by
  rw [crawlStep]

theorem addPageUrl_frame (origin : String) (st : CrawlState) (u : String) :
    (addPageUrl origin st u).seenSitemaps = st.seenSitemaps ∧
    (addPageUrl origin st u).fetchLog = st.fetchLog ∧
    ((∀ x, x ∈ st.seenUrls ↔ x ∈ st.allUrls) →
      ∀ x, x ∈ (addPageUrl origin st u).seenUrls ↔ x ∈ (addPageUrl origin st u).allUrls) := by
  unfold addPageUrl
  by_cases hc : (!(st.seenUrls.contains u) && (jsStartsWith u origin || jsStartsWith u "http")) = true
  · rw [if_pos hc]
    refine ⟨rfl, rfl, ?_⟩
    intro h x
    simp only [List.mem_cons, List.mem_append, List.mem_singleton, h x]
    tauto
  · rw [if_neg hc]
    exact ⟨rfl, rfl, fun h => h⟩

theorem addPage_fold_frame (origin : String) :
    ∀ (urls : List String) (st : CrawlState),
      (urls.foldl (addPageUrl origin) st).seenSitemaps = st.seenSitemaps ∧
      (urls.foldl (addPageUrl origin) st).fetchLog = st.fetchLog ∧
      ((∀ x, x ∈ st.seenUrls ↔ x ∈ st.allUrls) →
        ∀ x, x ∈ (urls.foldl (addPageUrl origin) st).seenUrls ↔
          x ∈ (urls.foldl (addPageUrl origin) st).allUrls) := by
  intro urls
  induction urls with
  | nil => intro st; exact ⟨rfl, rfl, fun h => h⟩
  | cons u rest ih =>
    intro st
    obtain ⟨s1, s2, s3⟩ := addPageUrl_frame origin st u
    obtain ⟨t1, t2, t3⟩ := ih (addPageUrl origin st u)
    rw [List.foldl_cons]
    exact ⟨by rw [t1, s1], by rw [t2, s2], fun h => t3 (s3 h)⟩

theorem crawl_mono_inv (net : Net) (origin : String) :
    ∀ fuel : Nat,
      (∀ (u : String) (st st' : CrawlState), crawlStep net origin fuel u st = some st' →
        (∀ x ∈ st.seenSitemaps, x ∈ st'.seenSitemaps) ∧ (crawlInv st → crawlInv st')) ∧
      (∀ (l : List String) (st st' : CrawlState),
        List.foldlM (fun s u2 => crawlStep net origin fuel u2 s) st l = some st' →
        (∀ x ∈ st.seenSitemaps, x ∈ st'.seenSitemaps) ∧ (crawlInv st → crawlInv st')) := by
  intro fuel
  induction fuel with
  | zero =>
    constructor
    · intro u st st' h
      rw [crawlStep_zero] at h
      cases h
    · intro l
      cases l with
      | nil =>
        intro st st' h
        simp only [List.foldlM_nil, Option.pure_def] at h
        cases Option.some.inj h
        exact ⟨fun x hx => hx, fun hi => hi⟩
      | cons u rest =>
        intro st st' h
        rw [List.foldlM_cons, crawlStep_zero] at h
        simp at h
  | succ f ih =>
    obtain ⟨ihA, ihB⟩ := ih
    have A : ∀ (u : String) (st st' : CrawlState),
        crawlStep net origin (f + 1) u st = some st' →
        (∀ x ∈ st.seenSitemaps, x ∈ st'.seenSitemaps) ∧ (crawlInv st → crawlInv st') := by
      intro u st st' h
      rw [crawlStep_succ] at h
      by_cases hseen : st.seenSitemaps.contains u = true
      · rw [if_pos hseen] at h
        cases Option.some.inj h
        exact ⟨fun x hx => hx, fun hi => hi⟩
      · rw [if_neg hseen] at h
        have hu : u ∉ st.seenSitemaps := by simpa using hseen
        have hinv1 : crawlInv st →
            crawlInv { st with
              seenSitemaps := u :: st.seenSitemaps,
              fetchLog := st.fetchLog ++ [u] } := by
          rintro ⟨h1, h2, h3⟩
          refine ⟨?_, ?_, h3⟩
          · have hufl : u ∉ st.fetchLog := fun hm => hu (h2 u hm)
            exact h1.append (List.nodup_singleton u)
              (fun a ha hb => by
                simp only [List.mem_singleton] at hb
                subst hb
                exact absurd ha hufl)
          · intro x hx
            rcases List.mem_append.mp hx with hfl | hu1
            · exact List.mem_cons_of_mem _ (h2 x hfl)
            · simp only [List.mem_singleton] at hu1
              subst hu1
              exact List.mem_cons_self _ _
        cases hnet : mapGet net u with
        | none =>
          simp only [hnet] at h
          cases Option.some.inj h
          exact ⟨fun x hx => List.mem_cons_of_mem _ hx, hinv1⟩
        | some locs =>
          simp only [hnet] at h
          cases hfold : List.foldlM (fun s u2 => crawlStep net origin f u2 s)
              { st with
                seenSitemaps := u :: st.seenSitemaps,
                fetchLog := st.fetchLog ++ [u] } (locs.filter isSitemapUrl) with
          | none =>
            rw [hfold] at h
            cases h
          | some st2 =>
            rw [hfold] at h
            cases Option.some.inj h
            obtain ⟨m2, i2⟩ := ihB (locs.filter isSitemapUrl) _ st2 hfold
            obtain ⟨f1, f2, f3⟩ :=
              addPage_fold_frame origin (locs.filter (fun l2 => !isSitemapUrl l2)) st2
            constructor
            · intro x hx
              have : x ∈ st2.seenSitemaps := m2 x (List.mem_cons_of_mem _ hx)
              rw [show ((locs.filter (fun l2 => !isSitemapUrl l2)).foldl
                  (addPageUrl origin) st2).seenSitemaps = st2.seenSitemaps from f1]
              exact this
            · intro hi
              obtain ⟨a1, a2, a3⟩ := i2 (hinv1 hi)
              refine ⟨?_, ?_, f3 a3⟩
              · rw [f2]
                exact a1
              · intro x hx
                rw [f2] at hx
                rw [f1]
                exact a2 x hx
    have B : ∀ (l : List String) (st st' : CrawlState),
        List.foldlM (fun s u2 => crawlStep net origin (f + 1) u2 s) st l = some st' →
        (∀ x ∈ st.seenSitemaps, x ∈ st'.seenSitemaps) ∧ (crawlInv st → crawlInv st') := by
      intro l
      induction l with
      | nil =>
        intro st st' h
        simp only [List.foldlM_nil, Option.pure_def] at h
        cases Option.some.inj h
        exact ⟨fun x hx => hx, fun hi => hi⟩
      | cons u rest ihl =>
        intro st st' h
        rw [List.foldlM_cons] at h
        cases hstep : crawlStep net origin (f + 1) u st with
        | none =>
          simp [hstep] at h
        | some st2 =>
          simp only [hstep, Option.some_bind] at h
          obtain ⟨mA, iA⟩ := A u st st2 hstep
          obtain ⟨mB, iB⟩ := ihl st2 st' h
          exact ⟨fun x hx => mB x (mA x hx), fun hi => iB (iA hi)⟩
    exact ⟨A, B⟩

theorem crawl_total (net : Net) (origin : String) :
    ∀ fuel : Nat,
      (∀ (u : String) (st : CrawlState), crawlMeasure net st < fuel →
        (crawlStep net origin fuel u st).isSome = true) ∧
      (∀ (l : List String) (st : CrawlState), crawlMeasure net st < fuel →
        (List.foldlM (fun s u2 => crawlStep net origin fuel u2 s) st l).isSome = true) := by
  intro fuel
  induction fuel with
  | zero =>
    exact ⟨fun u st h => absurd h (Nat.not_lt_zero _),
      fun l st h => absurd h (Nat.not_lt_zero _)⟩
  | succ f ih =>
    obtain ⟨ihA, ihB⟩ := ih
    have A : ∀ (u : String) (st : CrawlState), crawlMeasure net st < f + 1 →
        (crawlStep net origin (f + 1) u st).isSome = true := by
      intro u st hm
      rw [crawlStep_succ]
      by_cases hseen : st.seenSitemaps.contains u = true
      · rw [if_pos hseen]
        rfl
      · rw [if_neg hseen]
        have hu : u ∉ st.seenSitemaps := by simpa using hseen
        cases hnet : mapGet net u with
        | none => simp [hnet]
        | some locs =>
          simp only [hnet]
          have hlt : crawlMeasure net
              { st with
                seenSitemaps := u :: st.seenSitemaps,
                fetchLog := st.fetchLog ++ [u] } < crawlMeasure net st :=
            crawlMeasure_strict net st _ u locs hu hnet rfl
          have hfold := ihB (locs.filter isSitemapUrl)
            { st with
              seenSitemaps := u :: st.seenSitemaps,
              fetchLog := st.fetchLog ++ [u] } (by omega)
          cases hfoldeq : List.foldlM (fun s u2 => crawlStep net origin f u2 s)
              { st with
                seenSitemaps := u :: st.seenSitemaps,
                fetchLog := st.fetchLog ++ [u] } (locs.filter isSitemapUrl) with
          | none =>
            rw [hfoldeq] at hfold
            simp at hfold
          | some st2 => simp [hfoldeq]
    have B : ∀ (l : List String) (st : CrawlState), crawlMeasure net st < f + 1 →
        (List.foldlM (fun s u2 => crawlStep net origin (f + 1) u2 s) st l).isSome = true := by
      intro l
      induction l with
      | nil =>
        intro st hm
        simp [List.foldlM_nil]
      | cons u rest ihl =>
        intro st hm
        rw [List.foldlM_cons]
        have hstep := A u st hm
        cases hstepeq : crawlStep net origin (f + 1) u st with
        | none =>
          rw [hstepeq] at hstep
          simp at hstep
        | some st2 =>
          show (List.foldlM (fun s u2 => crawlStep net origin (f + 1) u2 s) st2
            rest).isSome = true
          have hmono := ((crawl_mono_inv net origin (f + 1)).1 u st st2 hstepeq).1
          have hle : crawlMeasure net st2 ≤ crawlMeasure net st :=
            crawlMeasure_mono net st st2 hmono
          exact ihl st2 (by omega)
    exact ⟨A, B⟩

/-- Claim C4: during one resolve call each sitemap URL is fetched at most
once (the fetch log of the finished crawl has no duplicates), and the
recursive traversal always terminates — a depth budget of `net.length + 1`
already makes `crawlSitemapRecursive` finish on every network, cyclic or
not, as the concrete two-sitemap cycle in the last conjunct also shows
while returning the cycle's page URLs. -/
theorem crawl_terminates_and_fetches_once :
    (∀ (net : Net) (origin rootUrl : String),
      ∃ st', crawlStep net origin (net.length + 1) rootUrl ⟨[], [], [], []⟩ = some st' ∧
        st'.fetchLog.Nodup) ∧
    (crawlRun netCyc "https://e.x" "https://e.x/sitemap.xml" ⟨[], [], [], []⟩).allUrls =
      ["https://e.x/b", "https://e.x/a"] ∧
    (crawlRun netCyc "https://e.x" "https://e.x/sitemap.xml" ⟨[], [], [], []⟩).fetchLog =
      ["https://e.x/sitemap.xml", "https://e.x/sub/sitemap.xml"] := by
  refine ⟨?_, by decide, by decide⟩
  intro net origin rootUrl
  have hm : crawlMeasure net ⟨[], [], [], []⟩ < net.length + 1 := by
    have hle : crawlMeasure net ⟨[], [], [], []⟩ ≤ net.length := List.length_filter_le _ _
    omega
  have hs := (crawl_total net origin (net.length + 1)).1 rootUrl _ hm
  cases heq : crawlStep net origin (net.length + 1) rootUrl ⟨[], [], [], []⟩ with
  | none =>
    rw [heq] at hs
    simp at hs
  | some st' =>
    refine ⟨st', rfl, ?_⟩
    have hinv := ((crawl_mono_inv net origin (net.length + 1)).1 rootUrl _ st' heq).2
    have h0 : crawlInv ⟨[], [], [], []⟩ := ⟨List.nodup_nil, by simp, by simp⟩
    exact (hinv h0).1

theorem crawlRun_eq (net : Net) (origin u : String) (st : CrawlState) :
    crawlStep net origin (net.length + 1) u st = some (crawlRun net origin u st) := by
  have hm : crawlMeasure net st ≤ net.length := List.length_filter_le _ _
  have hs := (crawl_total net origin (net.length + 1)).1 u st (by omega)
  cases heq : crawlStep net origin (net.length + 1) u st with
  | none =>
    rw [heq] at hs
    simp at hs
  | some st' =>
    rw [crawlRun, heq]
    rfl

theorem crawlRun_inv (net : Net) (origin u : String) (st : CrawlState) :
    (∀ x ∈ st.seenSitemaps, x ∈ (crawlRun net origin u st).seenSitemaps) ∧
    (crawlInv st → crawlInv (crawlRun net origin u st)) :=
  (crawl_mono_inv net origin (net.length + 1)).1 u st _ (crawlRun_eq net origin u st)

theorem crawlAltPhase_inv (net : Net) (origin : String) :
    crawlInv (crawlAltPhase net origin) := by
  have h0 : crawlInv ⟨[], [], [], []⟩ := ⟨List.nodup_nil, by simp, by simp⟩
  have h1 : crawlInv (crawlRootPhase net origin) :=
    (crawlRun_inv net origin (origin ++ "/sitemap.xml") _).2 h0
  rw [crawlAltPhase]
  by_cases hc : (crawlRootPhase net origin).allUrls.length = 0
  · rw [if_pos hc]
    simp only [alternativePaths, List.foldl_cons, List.foldl_nil]
    exact (crawlRun_inv _ _ _ _).2 ((crawlRun_inv _ _ _ _).2 ((crawlRun_inv _ _ _ _).2 h1))
  · rw [if_neg hc]
    exact h1

/-- Claim C5: if the recursion over the root sitemap and every alternative
well-known path collects no URLs at all (in particular when every fetch
fails), the resolver returns exactly the one-element homepage list with
`total = 1`; the model is a total function, so no error reaches the
caller. -/
theorem sitemap_empty_resolves_to_homepage :
    ∀ (net : Net) (origin : String),
      (crawlAltPhase net origin).allUrls = [] →
      getUrlsFromSitemapM net origin =
        ⟨[origin ++ "/"], [origin ++ "/"], [origin ++ "/"], 1⟩ := by
  intro net origin h
  obtain ⟨_, _, hmem⟩ := crawlAltPhase_inv net origin
  have hseen : (crawlAltPhase net origin).seenUrls.contains (origin ++ "/") = false := by
    by_cases hc : (crawlAltPhase net origin).seenUrls.contains (origin ++ "/") = true
    · exfalso
      have hm := (hmem (origin ++ "/")).mp (by simpa using hc)
      rw [h] at hm
      cases hm
    · simpa using hc
  have hfb : homeFallbackPhase net origin =
      { crawlAltPhase net origin with
        seenUrls := (origin ++ "/") :: (crawlAltPhase net origin).seenUrls,
        allUrls := (crawlAltPhase net origin).allUrls ++ [origin ++ "/"] } := by
    rw [homeFallbackPhase]
    rw [if_pos (by rw [h]; rfl)]
    rw [if_neg (by simpa using hseen)]
  rw [getUrlsFromSitemapM, hfb, h]
  simp [jsSetDedup, orderHomeFirst]

/-- Claim C3: whenever the homepage URL is in the deduplicated collected
set, the final ordered list starts with the homepage and continues with
the remaining deduplicated URLs in their discovery order. -/
theorem sitemap_homepage_first :
    ∀ (net : Net) (origin : String),
      (origin ++ "/") ∈ jsSetDedup (homeFallbackPhase net origin).allUrls →
      (getUrlsFromSitemapM net origin).allUrls.head? = some (origin ++ "/") ∧
      (getUrlsFromSitemapM net origin).allUrls.tail =
        (jsSetDedup (homeFallbackPhase net origin).allUrls).filter
          (fun u => decide (u ≠ origin ++ "/")) := by
  intro net origin h
  have hcont : (jsSetDedup (homeFallbackPhase net origin).allUrls).contains
      (origin ++ "/") = true := by simpa using h
  show ((orderHomeFirst origin (jsSetDedup (homeFallbackPhase net origin).allUrls)).head? =
      some (origin ++ "/")) ∧
    (orderHomeFirst origin (jsSetDedup (homeFallbackPhase net origin).allUrls)).tail =
      (jsSetDedup (homeFallbackPhase net origin).allUrls).filter
        (fun u => decide (u ≠ origin ++ "/"))
  rw [orderHomeFirst]
  rw [if_pos hcont]
  exact ⟨rfl, rfl⟩

/-- Witness for the homepage-first claim on the concrete one-sitemap
network whose sitemap lists the homepage between two other pages. -/
theorem sitemap_homepage_first_witness :
    (getUrlsFromSitemapM net3 "https://e.x").allUrls.head? = some ("https://e.x" ++ "/") :=
  (sitemap_homepage_first net3 "https://e.x" (by decide)).1

/-- Witness for the homepage-fallback claim: on the empty network (every
fetch fails) the resolver returns exactly the homepage with total 1. -/
theorem sitemap_empty_resolves_to_homepage_witness :
    getUrlsFromSitemapM [] "https://e.x" =
      ⟨["https://e.x" ++ "/"], ["https://e.x" ++ "/"], ["https://e.x" ++ "/"], 1⟩ :=
  sitemap_empty_resolves_to_homepage [] "https://e.x" (by decide)

/-! ## Aggregation lemmas and claim C1 -/

theorem pushPage_issue (e : GroupEntry) (o : Option String) :
    (pushPage e o).issue = e.issue := by
  cases o with
  | none => rfl
  | some u =>
    by_cases h : u ∈ e.pages <;> simp [pushPage, h]

theorem mapGet_insertIssue (m : List (String × GroupEntry)) (i : AuditIssue) (k : String) :
    mapGet (insertIssue m i) k =
      if keyOf i = k then accumGroup (mapGet m k) i else mapGet m k := by
  induction m with
  | nil =>
    by_cases hk : keyOf i = k <;> simp [insertIssue, mapGet, accumGroup, hk]
  | cons kv rest ih =>
    obtain ⟨k2, e⟩ := kv
    rw [insertIssue]
    by_cases h2 : k2 = keyOf i
    · subst h2
      rw [if_pos rfl]
      by_cases hk : keyOf i = k
      · simp [mapGet, hk, accumGroup]
      · simp [mapGet, hk]
    · rw [if_neg h2]
      by_cases h3 : k2 = k
      · have hk : keyOf i ≠ k := fun hh => h2 (h3.trans hh.symm)
        simp [mapGet, h3, hk]
      · simp [mapGet, h3, ih]

theorem mapGet_foldl_insertIssue :
    ∀ (l : List AuditIssue) (m : List (String × GroupEntry)) (k : String),
      mapGet (List.foldl insertIssue m l) k =
        List.foldl accumGroup (mapGet m k) (l.filter (fun i => decide (keyOf i = k))) := by
  intro l
  induction l with
  | nil => intro m k; rfl
  | cons i rest ih =>
    intro m k
    rw [List.foldl_cons, ih (insertIssue m i) k]
    by_cases hk : keyOf i = k
    · rw [List.filter_cons, if_pos (by simpa using hk), List.foldl_cons,
        mapGet_insertIssue, if_pos hk]
    · rw [List.filter_cons, if_neg (by simpa using hk), mapGet_insertIssue, if_neg hk]

theorem keys_insertIssue (m : List (String × GroupEntry)) (i : AuditIssue) :
    (insertIssue m i).map Prod.fst =
      if keyOf i ∈ m.map Prod.fst then m.map Prod.fst
      else m.map Prod.fst ++ [keyOf i] := by
  induction m with
  | nil => simp [insertIssue]
  | cons kv rest ih =>
    obtain ⟨k2, e⟩ := kv
    rw [insertIssue]
    by_cases h2 : k2 = keyOf i
    · subst h2
      rw [if_pos rfl]
      simp
    · rw [if_neg h2]
      simp only [List.map_cons]
      rw [ih]
      by_cases hm : keyOf i ∈ rest.map Prod.fst
      · rw [if_pos hm, if_pos (by simp [hm])]
      · have hne : keyOf i ∉ k2 :: rest.map Prod.fst := by
          simp only [List.mem_cons]
          rintro (hh | hh)
          · exact h2 hh.symm
          · exact hm hh
        rw [if_neg hm, if_neg hne]
        simp

theorem insertIssue_entry_keys (m : List (String × GroupEntry)) (i : AuditIssue) :
    (∀ kv ∈ m, keyOf kv.2.issue = kv.1) →
    ∀ kv ∈ insertIssue m i, keyOf kv.2.issue = kv.1 := by
  induction m with
  | nil =>
    intro _ kv hkv
    simp only [insertIssue, List.mem_singleton] at hkv
    subst hkv
    rfl
  | cons kv2 rest ih =>
    intro hm kv hkv
    obtain ⟨k2, e⟩ := kv2
    rw [insertIssue] at hkv
    by_cases h2 : k2 = keyOf i
    · rw [if_pos h2] at hkv
      rcases List.mem_cons.mp hkv with rfl | hr
      · have hhead := hm (k2, e) (by simp)
        simpa [pushPage_issue] using hhead
      · exact hm _ (by simp [hr])
    · rw [if_neg h2] at hkv
      rcases List.mem_cons.mp hkv with rfl | hr
      · exact hm _ (by simp)
      · exact ih (fun kv3 h3 => hm kv3 (by simp [h3])) kv hr

theorem keys_nodup_insertIssue (m : List (String × GroupEntry)) (i : AuditIssue)
    (h : (m.map Prod.fst).Nodup) : ((insertIssue m i).map Prod.fst).Nodup := by
  rw [keys_insertIssue]
  by_cases hm : keyOf i ∈ m.map Prod.fst
  · rw [if_pos hm]
    exact h
  · rw [if_neg hm]
    simp [List.nodup_append, h, hm]

theorem groupIssues_inv (l : List AuditIssue) :
    ((groupIssues l).map Prod.fst).Nodup ∧
    ∀ kv ∈ groupIssues l, keyOf kv.2.issue = kv.1 := by
  suffices h : ∀ (l2 : List AuditIssue) (m : List (String × GroupEntry)),
      (m.map Prod.fst).Nodup → (∀ kv ∈ m, keyOf kv.2.issue = kv.1) →
      ((List.foldl insertIssue m l2).map Prod.fst).Nodup ∧
      ∀ kv ∈ List.foldl insertIssue m l2, keyOf kv.2.issue = kv.1 by
    exact h l [] (by simp) (by simp)
  intro l2
  induction l2 with
  | nil => intro m h1 h2; exact ⟨h1, h2⟩
  | cons i rest ih =>
    intro m h1 h2
    rw [List.foldl_cons]
    exact ih _ (keys_nodup_insertIssue m i h1) (insertIssue_entry_keys m i h2)

theorem assoc_filter_singleton :
    ∀ (m : List (String × GroupEntry)) (k : String),
      (m.map Prod.fst).Nodup →
      m.filter (fun kv => decide (kv.1 = k)) =
        (match mapGet m k with
         | none => []
         | some e => [(k, e)]) := by
  intro m
  induction m with
  | nil => intro k _; rfl
  | cons kv rest ih =>
    intro k hnd
    obtain ⟨k2, e⟩ := kv
    simp only [List.map_cons, List.nodup_cons] at hnd
    by_cases h2 : k2 = k
    · subst h2
      rw [List.filter_cons, if_pos (by simp), mapGet, if_pos rfl]
      have hempty : rest.filter (fun kv2 => decide (kv2.1 = k2)) = [] := by
        rw [List.filter_eq_nil_iff]
        intro a ha
        simp only [decide_eq_true_eq]
        intro heq
        exact hnd.1 (by rw [← heq]; exact List.mem_map_of_mem Prod.fst ha)
      rw [hempty]
    · rw [List.filter_cons, if_neg (by simp [h2]), mapGet, if_neg h2]
      exact ih k hnd.2

theorem keyOf_materializeGroup (kv : String × GroupEntry) :
    keyOf (materializeGroup kv) = keyOf kv.2.issue := rfl

theorem aggregated_filter_eq (l : List AuditIssue) (k : String) :
    ((groupIssues l).map materializeGroup).filter (fun i => decide (keyOf i = k)) =
      ((groupIssues l).filter (fun kv => decide (kv.1 = k))).map materializeGroup := by
  rw [List.filter_map]
  congr 1
  apply List.filter_congr
  intro kv hkv
  have hk := (groupIssues_inv l).2 kv hkv
  show decide (keyOf (materializeGroup kv) = k) = decide (kv.1 = k)
  rw [keyOf_materializeGroup, hk]

theorem stamp_filter (r : AuditResult) (k : String) :
    (stampIssues r).filter (fun i => decide (keyOf i = k)) =
      (r.issues.filter (fun i => decide (keyOf i = k))).map
        (fun i => { i with pageUrl := some r.url }) := by
  rw [stampIssues, List.filter_map]
  congr 1

/-- Claim C1: aggregating two page reports that each contain exactly one
finding with a shared `(category, severity, title)` key but different
messages yields exactly one aggregated finding for that key, whose
`affectedPages` is `[pA.url, pB.url]` in first-seen order (the two URLs
being distinct) and whose message, value and all other identifying fields
are those of the first-seen finding. -/
theorem aggregation_grouping_law :
    ∀ (pA pB : AuditResult) (fA fB : AuditIssue),
      keyOf fB = keyOf fA →
      fA.message ≠ fB.message →
      pA.url ≠ pB.url →
      pA.issues.filter (fun i => decide (keyOf i = keyOf fA)) = [fA] →
      pB.issues.filter (fun i => decide (keyOf i = keyOf fA)) = [fB] →
      ∃ agg : AuditIssue,
        (aggregateIssues [pA, pB]).filter (fun i => decide (keyOf i = keyOf fA)) = [agg] ∧
        agg.affectedPages = some [pA.url, pB.url] ∧
        agg.message = fA.message ∧
        agg.value = fA.value ∧
        agg.category = fA.category ∧
        agg.severity = fA.severity ∧
        agg.title = fA.title ∧
        agg.recommendation = fA.recommendation := by
  intro pA pB fA fB hkey hmsg hurl hA hB
  have hstream : allIssuesOf [pA, pB] = stampIssues pA ++ stampIssues pB := by
    simp [allIssuesOf]
  have hfilter : (allIssuesOf [pA, pB]).filter (fun i => decide (keyOf i = keyOf fA)) =
      [{ fA with pageUrl := some pA.url }, { fB with pageUrl := some pB.url }] := by
    rw [hstream, List.filter_append, stamp_filter, stamp_filter, hA, hB]
    rfl
  have hnotin : pB.url ∉ [pA.url] := by
    simp only [List.mem_singleton]
    exact fun hh => hurl hh.symm
  have hlook : mapGet (groupIssues (allIssuesOf [pA, pB])) (keyOf fA) =
      some ⟨{ fA with pageUrl := some pA.url }, [pA.url, pB.url]⟩ := by
    rw [show groupIssues (allIssuesOf [pA, pB]) =
        List.foldl insertIssue [] (allIssuesOf [pA, pB]) from rfl]
    rw [mapGet_foldl_insertIssue, hfilter]
    simp only [List.foldl_cons, List.foldl_nil]
    rw [show accumGroup (mapGet ([] : List (String × GroupEntry)) (keyOf fA))
        { fA with pageUrl := some pA.url } =
        some (initGroup { fA with pageUrl := some pA.url }) from rfl]
    rw [show initGroup { fA with pageUrl := some pA.url } =
        ⟨{ fA with pageUrl := some pA.url }, [pA.url]⟩ from rfl]
    rw [show accumGroup (some ⟨{ fA with pageUrl := some pA.url }, [pA.url]⟩)
        { fB with pageUrl := some pB.url } =
        some (pushPage ⟨{ fA with pageUrl := some pA.url }, [pA.url]⟩
          (some pB.url)) from rfl]
    rw [pushPage]
    rw [if_neg (by simpa using hnotin)]
    rfl
  have hinv := groupIssues_inv (allIssuesOf [pA, pB])
  have hfs := assoc_filter_singleton (groupIssues (allIssuesOf [pA, pB])) (keyOf fA) hinv.1
  rw [hlook] at hfs
  refine ⟨materializeGroup (keyOf fA,
    ⟨{ fA with pageUrl := some pA.url }, [pA.url, pB.url]⟩), ?_, rfl, rfl, rfl, rfl, rfl,
    rfl, rfl⟩
  rw [show aggregateIssues [pA, pB] =
      (groupIssues (allIssuesOf [pA, pB])).map materializeGroup from rfl]
  rw [aggregated_filter_eq, hfs]
  rfl

/-- Witness for the grouping claim on two concrete page reports sharing the
key `(Meta, error, Missing title)` with different messages: the single
aggregated finding is `agg0`, carrying both URLs and the first-seen
message. -/
theorem aggregation_grouping_law_witness :
    (aggregateIssues [pageA, pageB]).filter
        (fun i => decide (keyOf i = keyOf findingA)) = [agg0] ∧
    agg0.affectedPages = some [pageA.url, pageB.url] ∧
    agg0.message = findingA.message := by
  obtain ⟨agg, h1, h2, h3, _⟩ :=
    aggregation_grouping_law pageA pageB findingA findingB (by decide) (by decide)
      (by decide) (by decide) (by decide)
  have hconc : (aggregateIssues [pageA, pageB]).filter
      (fun i => decide (keyOf i = keyOf findingA)) = [agg0] := by decide
  have hagg : agg = agg0 := by
    rw [h1] at hconc
    simpa using hconc
  refine ⟨?_, ?_, ?_⟩
  · rw [← hagg]
    exact h1
  · rw [← hagg]
    exact h2
  · rw [← hagg]
    exact h3
